import Mathlib

/-!
Verification development for the multithreaded download manager
(`src/core.py`, class `DownloadManager`).

The Python code is shallowly embedded as executable Lean definitions:

* machine integers are `Int` (Python ints are unbounded, so no wrapping);
  Python floor division `//` is `Int.fdiv`;
* the filesystem is explicit state: the per-segment part stores are a
  `List (Option (List Nat))` (`none` = the file is absent, `some bytes`
  = present with those bytes) plus the output file;
* the shared `stop_event` / `pause_event` flags read by a fetcher are a
  finite schedule of observations, one consumed per `is_set` call, so the
  cooperative loops become deterministic functions of the schedule;
* Python float arithmetic in the progress computation is modelled as exact
  rational arithmetic, with `round(x, 2)` as round-half-to-even at two
  decimal places.
-/

/-- Splits a character list at a separator, keeping empty pieces, as Python
`str.split(sep)` does.  The accumulator holds the current piece reversed. -/
def splitOnCharAux (sep : Char) : List Char → List Char → List (List Char)
  | [], acc => [acc.reverse]
  | c :: rest, acc =>
    if c = sep then acc.reverse :: splitOnCharAux sep rest []
    else splitOnCharAux sep rest (c :: acc)

/-- Embeds `url.split("/")[-1]` from `__init__` (core.py line 17): the last
piece of the url split at every slash. -/
def fileNameOfUrl (url : String) : String :=
  ⟨(splitOnCharAux '/' url.data []).getLastD []⟩

/-- The fields of `DownloadManager` assigned in `__init__` (core.py lines
7-17) that the claims depend on. -/
structure DownloadManager where
  url : String
  output_path : String
  num_threads : Int
  chunk_size : Int
  file_name : String
deriving DecidableEq, Repr

/-- Embeds `DownloadManager.__init__` (core.py lines 7-17):
`self.url = url.strip()`, `self.output_path = output_path`,
`self.num_threads = max(1, int(num_threads))`,
`self.chunk_size = max(1024, int(chunk_size))`,
`self.file_name = url.split("/")[-1]` (the unstripped `url`).
The parameters are annotated `int` in the source, so `int(...)` is the
identity.  `__init__` performs no validation and raises no error. -/
def DownloadManager.init (url : String) (output_path : String)
    (num_threads : Int) (chunk_size : Int) : DownloadManager :=
  { url := url.trim
    output_path := output_path
    num_threads := max 1 num_threads
    chunk_size := max 1024 chunk_size
    file_name := fileNameOfUrl url }

/-- Embeds `f"{self.file_name}.part{thread_index}"`, the name of the
temporary segment store of one fetcher (core.py lines 96 and 136). -/
def chunk_filename (file_name : String) (thread_index : Nat) : String :=
  file_name ++ ".part" ++ Nat.repr thread_index

/-- The path `_combine_chunks` opens for writing the final output
(core.py line 134): it is `self.file_name`, not `self.output_path`. -/
def combineTarget (dm : DownloadManager) : String :=
  dm.file_name

/-- Embeds `DownloadManager.split_ranges` (core.py lines 78-92).  The
method reads `self.total_size`, `self.num_threads` and
`self.accept_ranges`, passed here as arguments.  Python `//` on ints is
floor division, `Int.fdiv`.  There is no validation of `total_size`. -/
def split_ranges (total_size : Int) (num_threads : Int)
    (accept_ranges : Bool) : List (Int × Int) :=
  if ¬accept_ranges ∨ num_threads = 1 then
    [(0, total_size - 1)]
  else
    let chunk_size := total_size.fdiv num_threads
    (List.range num_threads.toNat).map fun (i : Nat) =>
      ((i : Int) * chunk_size,
        if (i : Int) < num_threads - 1 then (i : Int) * chunk_size + chunk_size - 1
        else total_size - 1)

/-- Embeds the `pf.read(self.chunk_size)` loop of `_combine_chunks`
(core.py lines 138-142): the successive blocks read from a part store of
the given contents.  The loop breaks on the first empty read (`if not
data: break`), which happens when the remaining contents are empty or the
read size is zero.  The fuel argument (instantiated with the length of
the contents in `readBlocks`) makes the recursion structural. -/
def readBlocksF (chunk_size : Nat) : Nat → List Nat → List (List Nat)
  | 0, _ => []
  | fuel + 1, content =>
    if (content.take chunk_size).isEmpty then []
    else content.take chunk_size :: readBlocksF chunk_size fuel (content.drop chunk_size)

/-- The list of blocks `_combine_chunks` reads from one part store. -/
def readBlocks (chunk_size : Nat) (content : List Nat) : List (List Nat) :=
  readBlocksF chunk_size content.length content

/-- Embeds the for-loop of `_combine_chunks` (core.py lines 135-143) over
the part stores in index order.  For each index: open the part store (a
`none` store is missing, so the `open` raises and the loop stops there),
copy its blocks to the output, then `os.remove` it.  Returns the part
stores after the loop, the bytes appended to the output, and whether the
loop completed.  On failure at some index, the earlier stores have
already been removed, while the failing store and all later ones are
untouched. -/
def combineGo (chunk_size : Nat) :
    List (Option (List Nat)) → List (Option (List Nat)) × List Nat × Bool
  | [] => ([], [], true)
  | none :: rest => (none :: rest, [], false)
  | some content :: rest =>
    let written := (readBlocks chunk_size content).flatten
    let r := combineGo chunk_size rest
    (none :: r.1, written ++ r.2.1, r.2.2)

/-- The filesystem state the coordinator manipulates: the part stores
(indexed by segment, `none` = absent) and the output file. -/
structure FS where
  parts : List (Option (List Nat))
  output : Option (List Nat)
deriving DecidableEq, Repr

/-- Embeds `_combine_chunks` (core.py lines 132-153):
`open(self.file_name, "wb")` creates (or truncates to empty) the output
file before any part is read, then the parts are copied and removed in
index order; an exception propagates after the partial work. -/
def combine_chunks (chunk_size : Nat) (fs : FS) : FS × Bool :=
  let r := combineGo chunk_size fs.parts
  ({ parts := r.1, output := some r.2.1 }, r.2.2)

/-- The terminal outcome `start()` reports through its status callback or
by raising (core.py lines 197-239). -/
inductive Outcome where
  | stopped
  | completed
  | error (msg : String)
deriving DecidableEq, Repr

/-- Embeds the tail of `start()` once the fetcher threads have been
spawned (core.py lines 191-231).  `stop_observed` is whether the monitor
loop saw `stop_event` set while threads were alive: if so it reports
`stopped` and returns with no assembly (lines 192-199).  Otherwise, after
joining, `if not all(self.thread_status)` raises
`Exception("One or more threads failed to download properly.")` (lines
222-223) and `_combine_chunks` is never called; if all succeeded,
`_combine_chunks` runs (line 226). -/
def coordinatorJoin (stop_observed : Bool) (thread_status : List Bool)
    (chunk_size : Nat) (fs : FS) : FS × Outcome :=
  if stop_observed then (fs, .stopped)
  else if thread_status.all id then
    let r := combine_chunks chunk_size fs
    (r.1, if r.2 then .completed else .error "Error combining chunks")
  else
    (fs, .error "One or more threads failed to download properly.")

/-- How far the front of `start()` gets before spawning fetchers
(core.py lines 155-185): the filename validation (line 157), then — with
the probe already done — the range-support check (lines 173-174), then
`split_ranges` and one thread per range (lines 177-185). -/
inductive StartOutcome where
  | invalidName
  | unsupportedServer
  | spawned (fetchers : List (Nat × Int × Int))
deriving DecidableEq, Repr

/-- Embeds the front of `start()` (core.py lines 155-185).  The results of
a successful `get_file_info` probe are passed in as `total_size` and
`accept_ranges`.  `if not self.accept_ranges: raise Exception("Server
does not support Range requests.")` runs before `split_ranges` and before
any thread is created, whatever `num_threads` is. -/
def start_begin (file_name : String) (total_size : Int)
    (accept_ranges : Bool) (num_threads : Int) : StartOutcome :=
  if file_name = "" then .invalidName
  else if ¬accept_ranges then .unsupportedServer
  else .spawned
    (((split_ranges total_size num_threads accept_ranges).enum).map
      fun p => (p.1, p.2.1, p.2.2))

/-- The segment stores created by a run of `start()`: a store is created
only inside a spawned fetcher (`open(chunk_filename, "wb")`, core.py line
104), so an erroring `start()` creates none. -/
def storesCreated (file_name : String) : StartOutcome → List String
  | .spawned fetchers => fetchers.map fun f => chunk_filename file_name f.1
  | _ => []

/-- One observation of the shared `stop_event` / `pause_event` pair as
read by a fetcher.  Successive reads consume successive entries of a
finite schedule; past the end of the schedule both flags read clear. -/
structure Flags where
  stop : Bool
  pause : Bool
deriving DecidableEq, Repr

/-- Reads the current flag state, consuming one schedule entry. -/
def readFlag : List Flags → Flags × List Flags
  | [] => (⟨false, false⟩, [])
  | f :: rest => (f, rest)

/-- Embeds `while self.pause_event.is_set(): self.pause_event.wait(0.1)`
(core.py lines 112-113).  Each loop condition check consumes one
observation; the loop exits only on reading `pause = false`.  The stop
flag is never read inside this loop. -/
def pauseWait : List Flags → List Flags
  | [] => []
  | f :: rest => if f.pause then pauseWait rest else rest

/-- Embeds the per-block loop of `_download_chunk` (core.py lines
105-123) for one fetcher.  Per block from `iter_content`, in source
order: read `stop_event` (line 108) and return on set, leaving
`thread_status` unset; run the pause loop (lines 112-113); `if block:`
write the block (lines 116-118).  Returns the blocks written to the
segment store, the remaining schedule, and whether the loop completed
normally (line 130 then sets `thread_status[i] = True`). -/
def fetchLoop : List (List Nat) → List Flags →
    List (List Nat) → List (List Nat) × List Flags × Bool
  | [], sched, written => (written, sched, true)
  | block :: blocks, sched, written =>
    let r := readFlag sched
    if r.1.stop then (written, r.2, false)
    else
      fetchLoop blocks (pauseWait r.2)
        (if block.isEmpty then written else written ++ [block])

/-- Python `round(y)` for a rational `y`: round half to even. -/
def roundHalfEven (y : ℚ) : ℤ :=
  if y - ⌊y⌋ < 1 / 2 then ⌊y⌋
  else if 1 / 2 < y - ⌊y⌋ then ⌊y⌋ + 1
  else if ⌊y⌋ % 2 = 0 then ⌊y⌋ else ⌊y⌋ + 1

/-- Python `round(x, 2)`: round half to even at two decimal places. -/
def pyRound2 (x : ℚ) : ℚ :=
  (roundHalfEven (x * 100) : ℚ) / 100

/-- Embeds the monitor loop progress report of `start()` (core.py lines
211-213): when a progress callback is attached and `self.total_size > 0`,
the value delivered is `round(min(100.0, downloaded_total / total_size *
100), 2)`; otherwise nothing is delivered (`none`). -/
def monitorPercent (downloaded_total : Int) (total_size : Int) : Option ℚ :=
  if 0 < total_size then
    some (pyRound2 (min 100 ((downloaded_total : ℚ) / (total_size : ℚ) * 100)))
  else none

/-- Embeds the per-block progress report of `_download_chunk` (core.py
lines 121-123), which fires only when `self.total_size > 0` and its
`progress_callback` parameter is not `None`; the delivered value is
`min(downloaded_total / total_size * 100.0, 100.0)`, unrounded.  `start()`
spawns the threads with `args=(i, start, end)` (line 182), so in a
coordinated run this parameter is `None` and this report never fires. -/
def chunkPercent (downloaded_total : Int) (total_size : Int)
    (progress_callback_attached : Bool) : Option ℚ :=
  if 0 < total_size ∧ progress_callback_attached then
    some (min ((downloaded_total : ℚ) / (total_size : ℚ) * 100) 100)
  else none

/-- State of one fetcher with respect to the shared counter:
`self.downloaded_total += len(block)` (core.py line 118) is an
unsynchronized read-add-write of a shared attribute, so one increment is
two separately schedulable micro-steps: load the counter, then store the
loaded value plus the block length. -/
structure FetcherCounterState where
  pending : List Int
  temp : Option Int
deriving DecidableEq, Repr

/-- One micro-step of one fetcher against the shared counter: a read step
records the current counter; a write step stores the recorded value plus
the next pending block length. -/
def counterStep (counter : Int) (t : FetcherCounterState) :
    Int × FetcherCounterState :=
  match t.temp, t.pending with
  | none, _ :: _ => (counter, { t with temp := some counter })
  | some v, len :: rest => (v + len, { pending := rest, temp := none })
  | _, [] => (counter, t)

/-- Runs the shared-counter micro-steps of all fetchers under an explicit
interleaving: the schedule names which fetcher takes the next micro-step. -/
def runCounterSched : List Nat → Int → List FetcherCounterState →
    Int × List FetcherCounterState
  | [], counter, threads => (counter, threads)
  | tid :: rest, counter, threads =>
    match threads[tid]? with
    | some t =>
      let r := counterStep counter t
      runCounterSched rest r.1 (threads.set tid r.2)
    | none => runCounterSched rest counter threads

/-- Each range after the first starts exactly one byte past the end of
the previous range. -/
def contiguousRanges (rs : List (Int × Int)) : Prop :=
  ∀ i : Nat, ∀ h : i + 1 < rs.length,
    (rs.get ⟨i + 1, h⟩).1 = (rs.get ⟨i, Nat.lt_of_succ_lt h⟩).2 + 1

/-- No byte offset lies in two distinct ranges of the list. -/
def nonOverlapping (rs : List (Int × Int)) : Prop :=
  ∀ i j : Nat, ∀ hi : i < rs.length, ∀ hj : j < rs.length, i ≠ j →
    ∀ x : Int,
      (rs.get ⟨i, hi⟩).1 ≤ x ∧ x ≤ (rs.get ⟨i, hi⟩).2 →
      ¬((rs.get ⟨j, hj⟩).1 ≤ x ∧ x ≤ (rs.get ⟨j, hj⟩).2)

/-- The union of the (inclusive) ranges is exactly the interval from `lo`
to `hi`. -/
def coversExactly (rs : List (Int × Int)) (lo hi : Int) : Prop :=
  ∀ x : Int, (∃ r ∈ rs, r.1 ≤ x ∧ x ≤ r.2) ↔ (lo ≤ x ∧ x ≤ hi)


/-! Helper lemmas shared by the claim theorems. -/

/-- With a positive read size and enough fuel, the blocks read from a part
store concatenate back to its contents. -/
theorem readBlocksF_flatten (chunk_size : Nat) (hcs : 0 < chunk_size) :
    ∀ fuel content, content.length ≤ fuel →
      (readBlocksF chunk_size fuel content).flatten = content := by
  intro fuel
  induction fuel with
  | zero =>
    intro content h
    have hnil : content = [] := List.length_eq_zero.mp (Nat.le_zero.mp h)
    simp [hnil, readBlocksF]
  | succ n ih =>
    intro content h
    by_cases hc : (content.take chunk_size).isEmpty
    · have hnil : content = [] := by
        rcases List.take_eq_nil_iff.mp (List.isEmpty_iff.mp hc) with h0 | h0
        · omega
        · exact h0
      simp [hnil, readBlocksF]
    · have hne : content ≠ [] := by
        intro h0
        subst h0
        simp at hc
      have hlen : 0 < content.length := List.length_pos.mpr hne
      rw [readBlocksF, if_neg hc, List.flatten_cons, ih]
      · exact List.take_append_drop _ _
      · simp only [List.length_drop]
        omega

/-- The block-read loop of `_combine_chunks` copies a part store
byte-for-byte. -/
theorem readBlocks_flatten (chunk_size : Nat) (hcs : 0 < chunk_size)
    (content : List Nat) : (readBlocks chunk_size content).flatten = content :=
  readBlocksF_flatten chunk_size hcs content.length content le_rfl

/-! C2 — segment failure handling. -/

/-- C2 counterexample: the error raised when some fetcher fails is the
fixed string "One or more threads failed to download properly."; two runs
whose sets of failed indices differ (index 0 failed vs index 1 failed)
produce the very same error, so the error does not name the failed
indices as the claim states. -/
theorem thread_failure_error_is_nameless :
    coordinatorJoin false [false, true] 1024 ⟨[some [1], some [2]], none⟩
      = (⟨[some [1], some [2]], none⟩,
         Outcome.error "One or more threads failed to download properly.") ∧
    (coordinatorJoin false [false, true] 1024 ⟨[some [1], some [2]], none⟩).2
      = (coordinatorJoin false [true, false] 1024 ⟨[some [1], some [2]], none⟩).2 := by
  decide

/-- C2 (amended): if, after all fetchers have exited, any entry of
`thread_status` is false, the run fails with the fixed error "One or more
threads failed to download properly." (which names no indices), assembly
is skipped entirely, and the filesystem is untouched: the output file is
not created and every segment store remains exactly as it was. -/
theorem thread_failure_skips_assembly (thread_status : List Bool)
    (chunk_size : Nat) (fs : FS) (hfail : false ∈ thread_status) :
    coordinatorJoin false thread_status chunk_size fs
      = (fs, Outcome.error "One or more threads failed to download properly.") := by
  have hall : thread_status.all id = false := by
    rw [List.all_eq_false]
    exact ⟨false, hfail, by decide⟩
  simp [coordinatorJoin, hall]

/-- Witness for `thread_failure_skips_assembly`: three fetchers, the
middle one failed, all three segment stores on disk, no output file. -/
theorem thread_failure_skips_assembly_witness :
    false ∈ [true, false, true] ∧
    coordinatorJoin false [true, false, true] 2048 ⟨[some [5], some [6], some [7]], none⟩
      = (⟨[some [5], some [6], some [7]], none⟩,
         Outcome.error "One or more threads failed to download properly.") :=
  ⟨by decide,
    thread_failure_skips_assembly [true, false, true] 2048
      ⟨[some [5], some [6], some [7]], none⟩ (by decide)⟩

/-! C3 — stop signal handling. -/

/-- C3 counterexample: a fetcher with one pending block whose flag
observations are: stop clear and pause set at the top-of-loop stop check,
then stop set while it sits in its pause loop, then pause cleared with
stop still set.  Every observation from the second one on has the stop
flag set, yet the fetcher — whose pause loop never reads the stop flag —
writes its block after those observations and even completes normally,
refuting the claim that once the stop signal is set every fetcher
(including one waiting in its pause loop) writes no further blocks. -/
theorem paused_fetcher_writes_after_stop :
    (∀ f ∈ [Flags.mk true true, Flags.mk true false], f.stop = true) ∧
    fetchLoop [[7]] [⟨false, true⟩, ⟨true, true⟩, ⟨true, false⟩] []
      = ([[7]], [], true) := by
  decide

/-- C3 (amended): a fetcher reads the stop flag only at the top of its
per-block loop; when that read finds the flag set, the fetcher returns at
once, writing nothing further and leaving its status unsuccessful (a
fetcher inside its pause loop, however, does not read the stop flag, and
after pause clears writes its pending block before the next stop check —
see the counterexample).  The coordinator, on observing stop, terminates
the run as Stopped without assembling, leaving the filesystem — in
particular the output file — untouched. -/
theorem stop_observed_halts_run (f : Flags) (sched : List Flags)
    (block : List Nat) (blocks : List (List Nat)) (written : List (List Nat))
    (thread_status : List Bool) (chunk_size : Nat) (fs : FS)
    (hstop : f.stop = true) :
    fetchLoop (block :: blocks) (f :: sched) written = (written, sched, false) ∧
    coordinatorJoin true thread_status chunk_size fs = (fs, Outcome.stopped) := by
  refine ⟨?_, by simp [coordinatorJoin]⟩
  simp [fetchLoop, readFlag, hstop]

/-- Witness for `stop_observed_halts_run`: one block, stop set at the
first observation. -/
theorem stop_observed_halts_run_witness :
    (Flags.mk true false).stop = true ∧
    (fetchLoop [[9]] [⟨true, false⟩] [] = ([], [], false) ∧
     coordinatorJoin true [true] 1024 ⟨[some [9]], none⟩
       = (⟨[some [9]], none⟩, Outcome.stopped)) :=
  ⟨rfl, stop_observed_halts_run ⟨true, false⟩ [] [9] [] [] [true] 1024
    ⟨[some [9]], none⟩ rfl⟩

/-! C4 — no range support rejects start(). -/

/-- C4: when the probe reports no range support, `start()` (with a
non-empty derived file name, the check that precedes the probe) fails
with the "Server does not support Range requests." error for every
requested worker count — including a worker count of 1 — and it does so
before any fetcher is spawned or any segment store is created. -/
theorem no_range_support_rejects_start (file_name : String)
    (total_size num_threads : Int) (hname : file_name ≠ "") :
    start_begin file_name total_size false num_threads
        = StartOutcome.unsupportedServer ∧
    storesCreated file_name (start_begin file_name total_size false num_threads)
        = [] := by
  simp [start_begin, storesCreated, hname]

/-- Witness for `no_range_support_rejects_start`, at worker count 1. -/
theorem no_range_support_rejects_start_witness :
    "a.bin" ≠ "" ∧
    (start_begin "a.bin" 10000 false 1 = StartOutcome.unsupportedServer ∧
     storesCreated "a.bin" (start_begin "a.bin" 10000 false 1) = []) :=
  ⟨by decide, no_range_support_rejects_start "a.bin" 10000 1 (by decide)⟩

/-! C6 — output and segment store naming. -/

/-- C6: for the request with url "http://host/a.bin" and destination path
"b.bin", the final output is written to "a.bin" — the name derived from
the url, not the requested destination "b.bin", which is stored but never
used — and segment store 0 is named "a.bin.part0", derived from the
url-derived name and the index, not from the destination file name. -/
theorem output_written_to_url_derived_name :
    combineTarget (DownloadManager.init "http://host/a.bin" "b.bin" 4 8192) = "a.bin" ∧
    (DownloadManager.init "http://host/a.bin" "b.bin" 4 8192).output_path = "b.bin" ∧
    combineTarget (DownloadManager.init "http://host/a.bin" "b.bin" 4 8192)
      ≠ (DownloadManager.init "http://host/a.bin" "b.bin" 4 8192).output_path ∧
    chunk_filename (DownloadManager.init "http://host/a.bin" "b.bin" 4 8192).file_name 0
      = "a.bin.part0" := by
  decide

/-! C7 — assembler deletion discipline. -/

/-- C7 counterexample: three segment stores, the middle one missing.
Assembly fails, yet store 0 — present before assembly and fully copied —
has been deleted, refuting the claim that on an assembly failure the
assembler never partially deletes segment stores and leaves all of them
on disk. -/
theorem assembler_partial_deletion_on_failure :
    combineGo 1024 [some [1, 2], none, some [7]]
      = ([none, none, some [7]], [1, 2], false) := by
  decide

/-- C7 (amended): each segment store is deleted only immediately after it
has been fully copied into the output; on a successful assembly every
store has been copied, in index order, and none is left behind; on a
failure at the first missing store, the stores already copied before the
failure have been deleted, while the failing store and all later ones are
left on disk untouched. -/
theorem assembler_deletion_discipline (chunk_size : Nat) (hcs : 0 < chunk_size)
    (copied : List (List Nat)) (rest : List (Option (List Nat))) :
    combineGo chunk_size (copied.map some)
      = (copied.map fun _ => (none : Option (List Nat)), copied.flatten, true) ∧
    combineGo chunk_size (copied.map some ++ none :: rest)
      = ((copied.map fun _ => (none : Option (List Nat))) ++ none :: rest,
          copied.flatten, false) := by
  induction copied with
  | nil => simp [combineGo]
  | cons c cs ih =>
    refine ⟨?_, ?_⟩
    · simp [combineGo, readBlocks_flatten chunk_size hcs, ih.1]
    · simp [combineGo, readBlocks_flatten chunk_size hcs, ih.2]

/-- Witness for `assembler_deletion_discipline`: two stores copied, then
a missing third store with one further store beyond it. -/
theorem assembler_deletion_discipline_witness :
    0 < 1024 ∧
    (combineGo 1024 ([[1], [2]].map some)
       = ([[1], [2]].map fun _ => (none : Option (List Nat)), [[1], [2]].flatten, true) ∧
     combineGo 1024 ([[1], [2]].map some ++ none :: [some [3]])
       = (([[1], [2]].map fun _ => (none : Option (List Nat))) ++ none :: [some [3]],
           [[1], [2]].flatten, false)) :=
  ⟨by decide, assembler_deletion_discipline 1024 (by decide) [[1], [2]] [some [3]]⟩

/-! C8 — no size validation in split_ranges. -/

/-- C8 counterexample: `split_ranges` with a total size of 0 does not
fail — there is no size validation anywhere in the method and no
InvalidSizeError anywhere in the module — it returns a list of ranges:
four degenerate ranges in the four-thread range-supported case, and the
single degenerate range (0, -6) for total size -5 in single-thread mode. -/
theorem split_ranges_returns_on_nonpositive_size :
    split_ranges 0 4 true = [(0, -1), (0, -1), (0, -1), (0, -1)] ∧
    split_ranges (-5) 1 true = [(0, -6)] := by
  decide

/-- C8 (amended): for every total size ≤ 0, `split_ranges` performs no
validation and returns a list of ranges normally: the single degenerate
range (0, totalSize - 1) when range support is off or the worker count is
1, and otherwise one (degenerate) range per worker. -/
theorem split_ranges_no_size_validation (total_size num_threads : Int)
    (accept_ranges : Bool) (htotal : total_size ≤ 0) (hn : 1 ≤ num_threads) :
    ((accept_ranges = false ∨ num_threads = 1) →
      split_ranges total_size num_threads accept_ranges = [(0, total_size - 1)]) ∧
    (accept_ranges = true → num_threads ≠ 1 →
      (split_ranges total_size num_threads accept_ranges).length
        = num_threads.toNat) := by
  constructor
  · intro h
    have hcond : ¬accept_ranges = true ∨ num_threads = 1 := by
      rcases h with h | h
      · exact Or.inl (by simp [h])
      · exact Or.inr h
    unfold split_ranges
    rw [if_pos hcond]
  · intro ha hn1
    have hcond : ¬(¬accept_ranges = true ∨ num_threads = 1) := by
      simp [ha, hn1]
    unfold split_ranges
    rw [if_neg hcond]
    simp only [List.length_map, List.length_range]

/-- Witness for `split_ranges_no_size_validation` at total size 0,
4 workers, range support on. -/
theorem split_ranges_no_size_validation_witness :
    (0 : Int) ≤ 0 ∧ (1 : Int) ≤ 4 ∧
    ((((true : Bool) = false ∨ (4 : Int) = 1) →
        split_ranges 0 4 true = [(0, 0 - 1)]) ∧
     ((true : Bool) = true → (4 : Int) ≠ 1 →
        (split_ranges 0 4 true).length = (4 : Int).toNat)) :=
  ⟨by decide, by decide,
    split_ranges_no_size_validation 0 4 true (by decide) (by decide)⟩

/-! C9 — lost updates on the shared counter. -/

/-- C9: the unsynchronized `self.downloaded_total += len(block)` is a
read micro-step followed by a write micro-step.  Under the interleaving
in which two fetchers, each writing a single block of length 1, both read
the counter (value 0) before either stores, the final counter is 1
although both fetchers finished and the lengths of their written blocks
sum to 2: the claimed no-lost-increment property fails on the code. -/
theorem lost_update_interleaving :
    runCounterSched [0, 1, 0, 1] 0 [⟨[1], none⟩, ⟨[1], none⟩]
      = (1, [⟨[], none⟩, ⟨[], none⟩]) ∧ (1 : Int) ≠ 1 + 1 := by
  decide

/-! C10 — constructor normalization. -/

/-- C10: for every constructor input, `__init__` raises nothing and
silently normalizes: the stored worker count is max(1, num_threads) and
the stored block size is max(1024, chunk_size), so the stored values are
always at least 1 and 1024 respectively. -/
theorem init_normalizes_parameters (url output_path : String)
    (num_threads chunk_size : Int) :
    (DownloadManager.init url output_path num_threads chunk_size).num_threads
        = max 1 num_threads ∧
    (DownloadManager.init url output_path num_threads chunk_size).chunk_size
        = max 1024 chunk_size ∧
    1 ≤ (DownloadManager.init url output_path num_threads chunk_size).num_threads ∧
    1024 ≤ (DownloadManager.init url output_path num_threads chunk_size).chunk_size := by
  refine ⟨rfl, rfl, ?_, ?_⟩ <;> simp [DownloadManager.init]

/-! C1 helper lemmas. -/

/-- The single-range branch of `split_ranges`. -/
theorem split_ranges_single_eq (total_size num_threads : Int) (accept_ranges : Bool)
    (h : ¬accept_ranges = true ∨ num_threads = 1) :
    split_ranges total_size num_threads accept_ranges = [(0, total_size - 1)] := by
  unfold split_ranges
  rw [if_pos h]

/-- The multi-range branch of `split_ranges`, as an explicit map. -/
theorem split_ranges_multi_eq (total_size num_threads : Int) (hn1 : num_threads ≠ 1) :
    split_ranges total_size num_threads true
      = (List.range num_threads.toNat).map (fun (i : Nat) =>
          ((i : Int) * total_size.fdiv num_threads,
            if (i : Int) < num_threads - 1
            then (i : Int) * total_size.fdiv num_threads + total_size.fdiv num_threads - 1
            else total_size - 1)) := by
  unfold split_ranges
  rw [if_neg (by simp [hn1])]

/-- The length of the multi-range plan is the worker count. -/
theorem split_ranges_length_multi (total_size num_threads : Int)
    (hn1 : num_threads ≠ 1) :
    (split_ranges total_size num_threads true).length = num_threads.toNat := by
  rw [split_ranges_multi_eq total_size num_threads hn1]
  simp

/-- Closed form of the i-th range of the multi-range plan. -/
theorem split_ranges_get_multi (total_size num_threads : Int) (hn1 : num_threads ≠ 1)
    (i : Nat) (h : i < (split_ranges total_size num_threads true).length) :
    (split_ranges total_size num_threads true).get ⟨i, h⟩
      = ((i : Int) * total_size.fdiv num_threads,
          if (i : Int) < num_threads - 1
          then (i : Int) * total_size.fdiv num_threads + total_size.fdiv num_threads - 1
          else total_size - 1) := by
  have hh : i < ((List.range num_threads.toNat).map (fun (i : Nat) =>
      ((i : Int) * total_size.fdiv num_threads,
        if (i : Int) < num_threads - 1
        then (i : Int) * total_size.fdiv num_threads + total_size.fdiv num_threads - 1
        else total_size - 1))).length := by
    rw [← split_ranges_multi_eq total_size num_threads hn1]
    exact h
  rw [List.get_of_eq (split_ranges_multi_eq total_size num_threads hn1)]
  simp [List.get_eq_getElem, List.getElem_map, List.getElem_range]

/-! C1 — the planner partitions the resource. -/

/-- C1: for every totalSize > 0, workerCount >= 1, and either value of
the range-support flag, the ranges returned by `split_ranges` are
nonempty, contiguous, non-overlapping, and their union is exactly the
byte interval from 0 to totalSize - 1; the last range always ends at
totalSize - 1, and in the multi-range case there are workerCount ranges
and every range but the last has length totalSize // workerCount. -/
theorem split_ranges_partition (total_size num_threads : Int) (accept_ranges : Bool)
    (htotal : 0 < total_size) (hn : 1 ≤ num_threads) :
    split_ranges total_size num_threads accept_ranges ≠ [] ∧
    contiguousRanges (split_ranges total_size num_threads accept_ranges) ∧
    nonOverlapping (split_ranges total_size num_threads accept_ranges) ∧
    coversExactly (split_ranges total_size num_threads accept_ranges) 0 (total_size - 1) ∧
    (∀ h : split_ranges total_size num_threads accept_ranges ≠ [],
      ((split_ranges total_size num_threads accept_ranges).getLast h).2
        = total_size - 1) ∧
    (accept_ranges = true → num_threads ≠ 1 →
      (split_ranges total_size num_threads accept_ranges).length = num_threads.toNat ∧
      ∀ i : Nat, ∀ h : i + 1 < (split_ranges total_size num_threads accept_ranges).length,
        ((split_ranges total_size num_threads accept_ranges).get
            ⟨i, Nat.lt_of_succ_lt h⟩).2
          - ((split_ranges total_size num_threads accept_ranges).get
            ⟨i, Nat.lt_of_succ_lt h⟩).1 + 1
          = total_size.fdiv num_threads) := by
  by_cases hsingle : ¬accept_ranges = true ∨ num_threads = 1
  · -- single-range branch
    rw [split_ranges_single_eq total_size num_threads accept_ranges hsingle]
    refine ⟨by simp, ?_, ?_, ?_, ?_, ?_⟩
    · intro i h
      simp at h
    · intro i j hi hj hij x hxi
      simp at hi hj
      omega
    · intro x
      simp
    · intro h
      simp
    · intro ha hn1
      rcases hsingle with h | h
      · exact absurd ha h
      · exact absurd h hn1
  · -- multi-range branch
    rcases not_or.mp hsingle with ⟨ha2, hn1⟩
    rw [not_not] at ha2
    subst ha2
    have hn0 : (0 : Int) < num_threads := by omega
    have hn2 : 2 ≤ num_threads := by omega
    have hfe : total_size.fdiv num_threads = total_size / num_threads :=
      Int.fdiv_eq_ediv total_size (by omega)
    have hc0 : 0 ≤ total_size.fdiv num_threads := by
      rw [hfe]
      exact Int.ediv_nonneg (by omega) (by omega)
    have hmod0 : 0 ≤ total_size % num_threads := Int.emod_nonneg total_size (by omega)
    have hmodlt : total_size % num_threads < num_threads :=
      Int.emod_lt_of_pos total_size hn0
    have hsum : num_threads * (total_size / num_threads) + total_size % num_threads
        = total_size := Int.ediv_add_emod total_size num_threads
    have hnc_le : num_threads * total_size.fdiv num_threads ≤ total_size := by
      rw [hfe]
      linarith
    have hlen := split_ranges_length_multi total_size num_threads hn1
    refine ⟨?_, ?_, ?_, ?_, ?_, ?_⟩
    · -- nonempty
      apply List.ne_nil_of_length_pos
      rw [hlen]
      omega
    · -- contiguous
      intro i h
      have hm := h
      rw [hlen] at hm
      rw [split_ranges_get_multi total_size num_threads hn1,
        split_ranges_get_multi total_size num_threads hn1]
      have hi : (i : Int) < num_threads - 1 := by omega
      rw [if_pos hi]
      push_cast
      ring
    · -- non-overlapping
      intro i j hi hj hij x hxi hxj
      have key : ∀ a b : Nat,
          ∀ ha : a < (split_ranges total_size num_threads true).length,
          ∀ hb : b < (split_ranges total_size num_threads true).length, a < b →
          ((split_ranges total_size num_threads true).get ⟨a, ha⟩).1 ≤ x →
          x ≤ ((split_ranges total_size num_threads true).get ⟨a, ha⟩).2 →
          ((split_ranges total_size num_threads true).get ⟨b, hb⟩).1 ≤ x →
          x ≤ ((split_ranges total_size num_threads true).get ⟨b, hb⟩).2 → False := by
        intro a b ha hb hab h1 h2 h3 h4
        have ham := ha
        have hbm := hb
        rw [hlen] at ham hbm
        rw [split_ranges_get_multi total_size num_threads hn1] at h2 h3
        have halast : (a : Int) < num_threads - 1 := by omega
        rw [if_pos halast] at h2
        simp only at h2 h3
        have hab1 : ((a : Int) + 1) * total_size.fdiv num_threads
            ≤ (b : Int) * total_size.fdiv num_threads := by
          apply mul_le_mul_of_nonneg_right _ hc0
          have : (a : Int) + 1 ≤ (b : Int) := by exact_mod_cast hab
          exact this
        have hexp : ((a : Int) + 1) * total_size.fdiv num_threads
            = (a : Int) * total_size.fdiv num_threads + total_size.fdiv num_threads := by
          ring
        linarith
      rcases Nat.lt_or_ge i j with hlt | hge
      · exact key i j hi hj hlt hxi.1 hxi.2 hxj.1 hxj.2
      · have hji : j < i := by omega
        exact key j i hj hi hji hxj.1 hxj.2 hxi.1 hxi.2
    · -- covers exactly
      intro x
      constructor
      · rintro ⟨r, hr, hr1, hr2⟩
        rw [split_ranges_multi_eq total_size num_threads hn1] at hr
        simp only [List.mem_map, List.mem_range] at hr
        obtain ⟨i, him, rfl⟩ := hr
        simp only at hr1 hr2
        constructor
        · have h0 : (0 : Int) ≤ (i : Int) * total_size.fdiv num_threads :=
            mul_nonneg (by positivity) hc0
          linarith
        · by_cases hilast : (i : Int) < num_threads - 1
          · rw [if_pos hilast] at hr2
            have h1 : ((i : Int) + 1) * total_size.fdiv num_threads
                ≤ num_threads * total_size.fdiv num_threads := by
              apply mul_le_mul_of_nonneg_right _ hc0
              omega
            have h2 : ((i : Int) + 1) * total_size.fdiv num_threads
                = (i : Int) * total_size.fdiv num_threads
                  + total_size.fdiv num_threads := by ring
            linarith
          · rw [if_neg hilast] at hr2
            exact hr2
      · rintro ⟨hx0, hxT⟩
        rw [split_ranges_multi_eq total_size num_threads hn1]
        by_cases hcz : total_size.fdiv num_threads = 0
        · refine ⟨_, List.mem_map_of_mem _ (List.mem_range.mpr
            (show num_threads.toNat - 1 < num_threads.toNat by omega)), ?_, ?_⟩
          · simp [hcz]
            exact hx0
          · have hnot : ¬(((num_threads.toNat - 1 : Nat) : Int) < num_threads - 1) := by
              omega
            simp only [if_neg hnot]
            exact hxT
        · have hcpos : 0 < total_size.fdiv num_threads :=
            lt_of_le_of_ne hc0 (Ne.symm hcz)
          have hq0 : 0 ≤ x / total_size.fdiv num_threads :=
            Int.ediv_nonneg hx0 hc0
          have hqc : total_size.fdiv num_threads * (x / total_size.fdiv num_threads)
              + x % total_size.fdiv num_threads = x :=
            Int.ediv_add_emod x (total_size.fdiv num_threads)
          have hm0 : 0 ≤ x % total_size.fdiv num_threads :=
            Int.emod_nonneg x (by omega)
          have hmc : x % total_size.fdiv num_threads < total_size.fdiv num_threads :=
            Int.emod_lt_of_pos x hcpos
          by_cases hql : x / total_size.fdiv num_threads < num_threads - 1
          · refine ⟨_, List.mem_map_of_mem _ (List.mem_range.mpr
              (show (x / total_size.fdiv num_threads).toNat < num_threads.toNat
                by omega)), ?_, ?_⟩
            · simp only
              have hcast : (((x / total_size.fdiv num_threads).toNat : Nat) : Int)
                  = x / total_size.fdiv num_threads := Int.toNat_of_nonneg hq0
              rw [hcast]
              have hcomm : total_size.fdiv num_threads * (x / total_size.fdiv num_threads)
                  = (x / total_size.fdiv num_threads) * total_size.fdiv num_threads := by
                ring
              linarith
            · simp only
              have hcast : (((x / total_size.fdiv num_threads).toNat : Nat) : Int)
                  = x / total_size.fdiv num_threads := Int.toNat_of_nonneg hq0
              rw [hcast, if_pos hql]
              have hcomm : total_size.fdiv num_threads * (x / total_size.fdiv num_threads)
                  = (x / total_size.fdiv num_threads) * total_size.fdiv num_threads := by
                ring
              linarith
          · refine ⟨_, List.mem_map_of_mem _ (List.mem_range.mpr
              (show num_threads.toNat - 1 < num_threads.toNat by omega)), ?_, ?_⟩
            · simp only
              have hcast : (((num_threads.toNat - 1 : Nat)) : Int)
                  = num_threads - 1 := by omega
              rw [hcast]
              have h1 : (num_threads - 1) * total_size.fdiv num_threads
                  ≤ (x / total_size.fdiv num_threads) * total_size.fdiv num_threads :=
                mul_le_mul_of_nonneg_right (by omega) hc0
              have hcomm : total_size.fdiv num_threads * (x / total_size.fdiv num_threads)
                  = (x / total_size.fdiv num_threads) * total_size.fdiv num_threads := by
                ring
              linarith
            · have hnot : ¬(((num_threads.toNat - 1 : Nat) : Int) < num_threads - 1) := by
                omega
              simp only [if_neg hnot]
              exact hxT
    · -- last range ends at total_size - 1
      intro h
      rw [List.getLast_eq_get]
      rw [split_ranges_get_multi total_size num_threads hn1]
      have hnot : ¬((((split_ranges total_size num_threads true).length - 1 : Nat) : Int)
          < num_threads - 1) := by
        rw [hlen]
        omega
      simp only [if_neg hnot]
    · -- multi case: count and equal lengths
      intro _ _
      refine ⟨hlen, ?_⟩
      intro i h
      have hm := h
      rw [hlen] at hm
      rw [split_ranges_get_multi total_size num_threads hn1]
      have hi : (i : Int) < num_threads - 1 := by omega
      simp only [if_pos hi]
      ring

/-- Witness for `split_ranges_partition` at the spec's end-to-end example:
a 10000-byte resource, range support on, 4 workers. -/
theorem split_ranges_partition_witness :
    (0 : Int) < 10000 ∧ (1 : Int) ≤ 4 ∧
    (split_ranges 10000 4 true ≠ [] ∧
     contiguousRanges (split_ranges 10000 4 true) ∧
     nonOverlapping (split_ranges 10000 4 true) ∧
     coversExactly (split_ranges 10000 4 true) 0 (10000 - 1) ∧
     (∀ h : split_ranges 10000 4 true ≠ [],
       ((split_ranges 10000 4 true).getLast h).2 = 10000 - 1) ∧
     ((true : Bool) = true → (4 : Int) ≠ 1 →
       (split_ranges 10000 4 true).length = (4 : Int).toNat ∧
       ∀ i : Nat, ∀ h : i + 1 < (split_ranges 10000 4 true).length,
         ((split_ranges 10000 4 true).get ⟨i, Nat.lt_of_succ_lt h⟩).2
           - ((split_ranges 10000 4 true).get ⟨i, Nat.lt_of_succ_lt h⟩).1 + 1
           = (10000 : Int).fdiv 4)) :=
  ⟨by decide, by decide, split_ranges_partition 10000 4 true (by decide) (by decide)⟩

/-! C5 helper lemmas on round-half-even. -/

/-- Round-half-even lies between the floor and the floor plus one. -/
theorem roundHalfEven_bounds (y : ℚ) :
    ⌊y⌋ ≤ roundHalfEven y ∧ roundHalfEven y ≤ ⌊y⌋ + 1 := by
  unfold roundHalfEven
  split_ifs <;> omega

/-- Round-half-even is monotone. -/
theorem roundHalfEven_mono {x y : ℚ} (h : x ≤ y) :
    roundHalfEven x ≤ roundHalfEven y := by
  have hf : ⌊x⌋ ≤ ⌊y⌋ := Int.floor_mono h
  rcases eq_or_lt_of_le hf with heq | hlt
  · have hfr : x - (⌊x⌋ : ℚ) ≤ y - (⌊x⌋ : ℚ) := by linarith
    unfold roundHalfEven
    rw [← heq]
    split_ifs <;> first | omega | linarith
  · have h1 := (roundHalfEven_bounds x).2
    have h2 := (roundHalfEven_bounds y).1
    omega

/-- Round-half-even of a rational at most an integer is at most that
integer. -/
theorem roundHalfEven_le_int (y : ℚ) (k : ℤ) (h : y ≤ (k : ℚ)) :
    roundHalfEven y ≤ k := by
  have hf : ⌊y⌋ ≤ k := by
    have hm := Int.floor_mono h
    rwa [Int.floor_intCast] at hm
  rcases eq_or_lt_of_le hf with heq | hlt
  · unfold roundHalfEven
    have hfr : y - (⌊y⌋ : ℚ) < 1 / 2 := by
      rw [heq]
      have hk : y - (k : ℚ) ≤ 0 := by linarith
      linarith
    rw [if_pos hfr, heq]
  · have h2 := (roundHalfEven_bounds y).2
    omega

/-- Python rounding to two decimals is monotone. -/
theorem pyRound2_mono {x y : ℚ} (h : x ≤ y) : pyRound2 x ≤ pyRound2 y := by
  unfold pyRound2
  have hr : roundHalfEven (x * 100) ≤ roundHalfEven (y * 100) :=
    roundHalfEven_mono (by linarith)
  have hcast : (roundHalfEven (x * 100) : ℚ) ≤ (roundHalfEven (y * 100) : ℚ) := by
    exact_mod_cast hr
  linarith

/-- Python rounding to two decimals never pushes a value at most 100
above 100. -/
theorem pyRound2_le_100 (x : ℚ) (h : x ≤ 100) : pyRound2 x ≤ 100 := by
  unfold pyRound2
  have hr : roundHalfEven (x * 100) ≤ 10000 :=
    roundHalfEven_le_int (x * 100) 10000 (by push_cast; linarith)
  have hcast : (roundHalfEven (x * 100) : ℚ) ≤ 10000 := by exact_mod_cast hr
  linarith

/-! C5 — progress percent values. -/

/-- C5 counterexample: with 1 of 3 bytes downloaded, the monitor loop
delivers round(min(100, 1/3*100), 2) = 33.33, which is not equal to
min(100, 1/3*100) = 100/3 = 33.333...: the delivered percent is the
two-decimal rounding of that expression, not the expression itself. -/
theorem monitor_percent_is_rounded :
    monitorPercent 1 3 = some (3333 / 100) ∧
    (3333 / 100 : ℚ) ≠ min 100 ((1 : ℚ) / (3 : ℚ) * 100) := by
  constructor
  · unfold monitorPercent
    rw [if_pos (by norm_num)]
    congr 1
    have hmin : min (100 : ℚ) (((1 : Int) : ℚ) / ((3 : Int) : ℚ) * 100) = 100 / 3 := by
      rw [min_eq_right] <;> norm_num
    rw [hmin]
    unfold pyRound2 roundHalfEven
    have hfl : ⌊(100 / 3 : ℚ) * 100⌋ = 3333 := by
      rw [Int.floor_eq_iff] <;> norm_num
    rw [hfl]
    norm_num
  · rw [min_eq_right (by norm_num)]
    norm_num

/-- C5 (amended): every percent delivered by the monitor loop equals
round(min(100, downloaded / totalSize * 100), 2) — the two-decimal
rounding of the claimed expression; the delivered values are monotone
non-decreasing in the downloaded counter, never exceed 100, and when
totalSize is 0 or unknown (nonpositive) no percent is reported at all. -/
theorem monitor_percent_spec (d1 d2 total_size : Int)
    (htotal : 0 < total_size) (hd : d1 ≤ d2) :
    monitorPercent d1 total_size
      = some (pyRound2 (min 100 ((d1 : ℚ) / (total_size : ℚ) * 100))) ∧
    (∀ p1 p2 : ℚ, monitorPercent d1 total_size = some p1 →
      monitorPercent d2 total_size = some p2 → p1 ≤ p2) ∧
    (∀ p : ℚ, monitorPercent d1 total_size = some p → p ≤ 100) ∧
    (∀ t : Int, t ≤ 0 → monitorPercent d1 t = none) := by
  have htQ : (0 : ℚ) < (total_size : ℚ) := by exact_mod_cast htotal
  refine ⟨?_, ?_, ?_, ?_⟩
  · unfold monitorPercent
    rw [if_pos htotal]
  · intro p1 p2 h1 h2
    unfold monitorPercent at h1 h2
    rw [if_pos htotal] at h1 h2
    rw [Option.some_inj] at h1 h2
    rw [← h1, ← h2]
    apply pyRound2_mono
    apply min_le_min le_rfl
    apply mul_le_mul_of_nonneg_right _ (by norm_num)
    exact (div_le_div_right htQ).mpr (by exact_mod_cast hd)
  · intro p hp
    unfold monitorPercent at hp
    rw [if_pos htotal, Option.some_inj] at hp
    rw [← hp]
    exact pyRound2_le_100 _ (min_le_left _ _)
  · intro t ht
    unfold monitorPercent
    rw [if_neg (by omega)]

/-- Witness for `monitor_percent_spec`: 1 then 2 of 3 bytes downloaded. -/
theorem monitor_percent_spec_witness :
    (0 : Int) < 3 ∧ (1 : Int) ≤ 2 ∧
    (monitorPercent 1 3
       = some (pyRound2 (min 100 (((1 : Int) : ℚ) / ((3 : Int) : ℚ) * 100))) ∧
     (∀ p1 p2 : ℚ, monitorPercent 1 3 = some p1 →
       monitorPercent 2 3 = some p2 → p1 ≤ p2) ∧
     (∀ p : ℚ, monitorPercent 1 3 = some p → p ≤ 100) ∧
     (∀ t : Int, t ≤ 0 → monitorPercent 1 t = none)) :=
  ⟨by decide, by decide, monitor_percent_spec 1 2 3 (by decide) (by decide)⟩
